import Mathlib

/-!
Verification of the graphiti Rust services against their natural-language
specification.  Each Rust function relevant to a claim is shallowly embedded
as an executable Lean definition (strings as `List Char`, `f32`/`f64` as `ℚ`,
hash maps as association lists in insertion order; where the Rust code's
behaviour depends on an unspecified hash-map iteration order the embedding
takes that order as an explicit parameter).
-/

namespace Graphiti

/-! ## Full-text sanitizer (graphiti-search-rs/src/search/fulltext.rs) -/

/-- The character class of the `SPECIAL_CHARS` regex
`[\\+\-!(){}\[\]^~*?:/]` in fulltext.rs. -/
def isSpecialChar (c : Char) : Bool :=
  c = '\\' || c = '+' || c = '-' || c = '!' || c = '(' || c = ')' ||
  c = Char.ofNat 123 || c = Char.ofNat 125 || c = '[' || c = ']' ||
  c = '^' || c = '~' || c = '*' || c = '?' || c = ':' || c = '/'

/-- `SPECIAL_CHARS.replace_all(query, r"\$0")`: every matched character is
replaced by a backslash followed by the character itself. -/
def replaceAllSpecial : List Char → List Char
  | [] => []
  | c :: cs =>
      (if isSpecialChar c then ['\\', c] else [c]) ++ replaceAllSpecial cs

/-- The `while let Some(ch) = chars.next()` loop of `sanitize_lucene_query`:
it toggles `in_quotes` on `'"'` and pushes every character unchanged. -/
def quoteLoop : List Char → Bool → List Char → List Char
  | [], _, result => result
  | c :: cs, inQuotes, result =>
      quoteLoop cs (if c = '"' then !inQuotes else inQuotes) (result ++ [c])

/-- `sanitize_lucene_query` from fulltext.rs: regex-escape the special
characters, then run the quote-tracking loop (which pushes all characters);
no wildcard is appended (that code is commented out in the source). -/
def sanitize_lucene_query (query : List Char) : List Char :=
  quoteLoop (replaceAllSpecial query) false []

/-! ## Adaptive TTL (graph-visualizer-rust/src/cache.rs) -/

/-- The `AdaptiveTTL` configuration struct from cache.rs (durations kept in
seconds, as `calculate_ttl` returns `as_secs()`). -/
structure AdaptiveTTL where
  hot_threshold : ℕ
  warm_threshold : ℕ
  hot_ttl : ℕ
  warm_ttl : ℕ
  cold_ttl : ℕ

/-- `AdaptiveTTL::default()` from cache.rs. -/
def AdaptiveTTL.default : AdaptiveTTL :=
  { hot_threshold := 100
    warm_threshold := 10
    hot_ttl := 1800
    warm_ttl := 300
    cold_ttl := 60 }

/-- `AdaptiveTTL::calculate_ttl` from cache.rs. -/
def AdaptiveTTL.calculate_ttl (self : AdaptiveTTL) (access_count : ℕ) : ℕ :=
  if access_count > self.hot_threshold then self.hot_ttl
  else if access_count > self.warm_threshold then self.warm_ttl
  else self.cold_ttl

/-! ## Rerankers (graphiti-search-rs/src/search/reranking.rs)

`reciprocal_rank_fusion` accumulates scores in a
`HashMap<String, (T, f32)>` and then sorts `scores.into_values()` with a
stable sort by descending score.  The accumulation is embedded as an
association list in insertion order (`rrfScores`); the order in which
`into_values()` yields the entries is unspecified by `HashMap`, so the
final stage (`reciprocal_rank_fusion`) takes that iteration order as an
explicit list argument, constrained in the theorems to be a permutation
of the accumulated values. -/

/-- `scores.entry(id).and_modify(|e| e.1 += score).or_insert((item, score))`:
bump the score of the existing entry for `id` (keeping its item), or insert
a fresh entry. -/
def upsertScore {T : Type} :
    List (String × T × ℚ) → String → T → ℚ → List (String × T × ℚ)
  | [], id, item, score => [(id, item, score)]
  | e :: es, id, item, score =>
      if e.1 = id then (e.1, e.2.1, e.2.2 + score) :: es
      else e :: upsertScore es id item score

/-- The double loop of `reciprocal_rank_fusion`: for each list, for each
`(rank, item)`, add `1 / (k + rank + 1)` to the item's entry. -/
def rrfScores {T : Type} (k : ℚ) (get_id : T → String)
    (ranked_lists : List (List T)) : List (String × T × ℚ) :=
  ranked_lists.foldl
    (fun acc list =>
      list.enum.foldl
        (fun acc p => upsertScore acc (get_id p.2) p.2 (1 / (k + (p.1 : ℚ) + 1)))
        acc)
    []

/-- Descending-score comparison used by
`results.sort_by(|a, b| b.1.partial_cmp(&a.1).unwrap())`: `a` precedes `b`
when `b`'s score is at most `a`'s.  Rust's `sort_by` is stable, so the
stable `List.insertionSort` by this relation has the same semantics. -/
def scoreDesc {T : Type} (a b : T × ℚ) : Prop := b.2 ≤ a.2

instance {T : Type} : DecidableRel (@scoreDesc T) :=
  fun a b => inferInstanceAs (Decidable (b.2 ≤ a.2))

instance {T : Type} : IsTotal (T × ℚ) scoreDesc :=
  ⟨fun a b => le_total b.2 a.2⟩

instance {T : Type} : IsTrans (T × ℚ) scoreDesc :=
  ⟨fun _ _ _ hab hbc => le_trans hbc hab⟩

/-- Final stage of `reciprocal_rank_fusion`: sort the values of the score
map by descending score (stable) and drop the scores.  `values_iter` is
`scores.into_values()` in whatever order the hash map yields it. -/
def reciprocal_rank_fusion {T : Type} (values_iter : List (T × ℚ)) : List T :=
  (List.insertionSort scoreDesc values_iter).map Prod.fst

/-- Sum of the scores recorded for `id` in a score association list. -/
def assocScore {T : Type} (acc : List (String × T × ℚ)) (id : String) : ℚ :=
  (acc.map (fun e => if e.1 = id then e.2.2 else 0)).sum

/-- The specification's RRF score of a candidate `id`:
`Σ` over input lists of `1 / (k + rank + 1)` summed over the ranks at which
the candidate occurs in that list. -/
def rrfSpecScore {T : Type} (k : ℚ) (get_id : T → String)
    (ranked_lists : List (List T)) (id : String) : ℚ :=
  (ranked_lists.map
    (fun l =>
      (l.enum.map
        (fun p => if get_id p.2 = id then 1 / (k + (p.1 : ℚ) + 1) else 0)).sum)).sum

/-! ### Centrality-boosted reranking -/

/-- The per-item score of `centrality_boosted_rerank`: base relevance
(cosine similarity to the query when the item has an embedding, `0.5` when
it lacks one, `1.0` when there is no query) plus `centrality · boost`.
`cos_sim` stands for `cosine_similarity_simd`, whose floating-point
arithmetic is abstracted as a rational-valued function. -/
def cbrScore {T : Type} (cos_sim : List ℚ → List ℚ → ℚ) (query : List ℚ)
    (get_embedding : T → Option (List ℚ)) (get_centrality : T → Option ℚ)
    (boost_factor : ℚ) (item : T) : ℚ :=
  let relevance_score :=
    if query ≠ [] then
      match get_embedding item with
      | some item_emb => cos_sim query item_emb
      | none => 1/2
    else 1
  let centrality := (get_centrality item).getD 0
  relevance_score + centrality * boost_factor

/-- `centrality_boosted_rerank` from reranking.rs: score every item, sort
by combined score descending (stable), take `limit`. -/
def centrality_boosted_rerank {T : Type} (cos_sim : List ℚ → List ℚ → ℚ)
    (items : List T) (query_embedding : Option (List ℚ))
    (get_embedding : T → Option (List ℚ)) (get_centrality : T → Option ℚ)
    (boost_factor : ℚ) (limit : ℕ) : List T :=
  if items.isEmpty then items
  else
    let query := query_embedding.getD []
    let scored_items := items.map
      (fun item =>
        (item, cbrScore cos_sim query get_embedding get_centrality boost_factor item))
    ((List.insertionSort scoreDesc scored_items).take limit).map Prod.fst

/-! ## Search orchestrator (graphiti-search-rs/src/search/mod.rs) -/

/-- `SearchMethod` from models.rs. -/
inductive SearchMethod where
  | Fulltext
  | Similarity
  | Bfs
deriving DecidableEq, Repr

/-- `Node` from graphiti-search-rs/src/models.rs (`Uuid` as `String`,
`DateTime<Utc>` as millisecond epoch, `f32` as `ℚ`). -/
structure SNode where
  uuid : String
  name : String
  node_type : String
  summary : Option String
  created_at : ℕ
  embedding : Option (List ℚ)
  group_id : Option String
  centrality : Option ℚ
deriving DecidableEq, Repr

/-- One arm of the `match method` in the compute closure of
`SearchEngine::search_nodes`: full-text and similarity searches hit the
store (their outcomes are the `run_fulltext` / `run_similarity`
parameters), similarity without a query vector and BFS produce `[]`.
`?` on a failing store call is the `Except` error. -/
def searchMethodStep {ε : Type} (run_fulltext run_similarity : Except ε (List SNode))
    (has_vector : Bool) : SearchMethod → Except ε (List SNode)
  | .Fulltext => run_fulltext
  | .Similarity => if has_vector then run_similarity else .ok []
  | .Bfs => .ok []

/-- The `for method in &config_clone.search_methods` loop of
`SearchEngine::search_nodes`: each method's result list is pushed onto
`method_results` in order; a failing method aborts the loop through `?`. -/
def searchNodesMethodResults {ε : Type}
    (methods : List SearchMethod)
    (run_fulltext run_similarity : Except ε (List SNode))
    (has_vector : Bool) : Except ε (List (List SNode)) :=
  match methods with
  | [] => Except.ok []
  | m :: rest => do
      let nodes ← searchMethodStep run_fulltext run_similarity has_vector m
      let remaining ← searchNodesMethodResults rest run_fulltext run_similarity has_vector
      pure (nodes :: remaining)

/-- The whole compute closure of `SearchEngine::search_nodes`: run the
method loop, rerank (`rerank` stands for `reranking::rerank_nodes` with
the configured reranker), and map an empty result to `None`. -/
def searchNodesCompute {ε : Type}
    (methods : List SearchMethod)
    (run_fulltext run_similarity : Except ε (List SNode))
    (has_vector : Bool)
    (rerank : List (List SNode) → Except ε (List SNode)) :
    Except ε (Option (List SNode)) := do
  let method_results ← searchNodesMethodResults methods run_fulltext run_similarity has_vector
  let reranked ← rerank method_results
  pure (if reranked.isEmpty then none else some reranked)

/-! ## Multi-layer cache (graph-visualizer-rust/src/cache.rs) -/

/-- Observable outcome of one uncontended `EnhancedCache::get_or_compute`
call: the value returned to the caller, what was written to the KV store
(`set_ex` value and TTL), and whether the key was marked in the negative
cache. -/
structure CacheOutcome (T ε : Type) where
  result : Except ε (Option T)
  stored : Option (T × ℕ)
  marked_exists : Bool

/-- `EnhancedCache::get_or_compute` from cache.rs, for a single caller:
`might_exist` is the negative-cache (Bloom filter) answer for the key,
`access_count` the incremented access counter, `redis_get` the outcome of
the KV read (`some v` when a cached value was present and deserialized).
On a miss, `compute` runs; `Ok(Some(v))` marks existence and stores with
the adaptive TTL, `Ok(None)` stores nothing, and `Err(e)` is logged and
becomes `None` — the closure result `None` is returned to the caller as
`Ok(None)`. -/
def EnhancedCache.get_or_compute {T ε : Type} (adaptive_ttl : AdaptiveTTL)
    (might_exist : Bool) (access_count : ℕ) (redis_get : Option T)
    (compute : Except ε (Option T)) : CacheOutcome T ε :=
  if !might_exist then ⟨.ok none, none, false⟩
  else
    match redis_get with
    | some cached => ⟨.ok (some cached), none, false⟩
    | none =>
        match compute with
        | .ok (some value) =>
            ⟨.ok (some value), some (value, adaptive_ttl.calculate_ttl access_count), true⟩
        | .ok none => ⟨.ok none, none, false⟩
        | .error _ => ⟨.ok none, none, false⟩

/-! ## Iterative PageRank (graphiti-centrality-rs/src/algorithms.rs,
`calculate_pagerank_custom`).  The graph arrives as a node list and an
edge list (the query results); `f64` is embedded as `ℚ`; the
`HashMap<String, Vec<String>>` / `HashMap<String, usize>` pair
`(out_links, out_degree)` is an association list from node to its link
vector and degree counter, updated in lockstep as in the source. -/

/-- `f64::abs`, written so that it kernel-reduces on rational literals. -/
def ratAbs (q : ℚ) : ℚ := if q < 0 then -q else q

/-- Lookup in an association list (the embedding of `HashMap::get`). -/
def assocGet {K V : Type} [DecidableEq K] (m : List (K × V)) (k : K) : Option V :=
  (m.find? (fun p => p.1 = k)).map Prod.snd

/-- Replace the value stored for `k` (no-op when `k` is absent, matching
`if let Some(links) = out_links.get_mut(&source)`). -/
def assocSet {K V : Type} [DecidableEq K] (m : List (K × V)) (k : K) (v : V) :
    List (K × V) :=
  m.map (fun p => if p.1 = k then (p.1, v) else p)

/-- `HashMap::insert`: overwrite the entry for `k` when present, append a
fresh entry otherwise. -/
def mapInsert {K V : Type} [DecidableEq K] (m : List (K × V)) (k : K) (v : V) :
    List (K × V) :=
  if (assocGet m k).isSome then assocSet m k v else m ++ [(k, v)]

/-- Build `(out_links, out_degree)` from the edge records: initialize every
node to `([], 0)`, then for each edge push the target onto the source's
link vector and increment its out-degree — only when the source is a known
node. -/
def buildOutLinks (nodes : List String) (edges : List (String × String)) :
    List (String × (List String × ℕ)) :=
  edges.foldl
    (fun acc e =>
      match assocGet acc e.1 with
      | some (links, deg) => assocSet acc e.1 (links ++ [e.2], deg + 1)
      | none => acc)
    (nodes.map (fun n => (n, ([], 0))))

/-- The inner contribution loop of one PageRank pass for node `v`:
`rank = (1−d)/|V|`, then for every node `u` whose link vector contains `v`
and whose out-degree is positive, `rank += d · pr[u]/out_degree(u)`. -/
def pagerankRank (nodes : List String)
    (out_links : List (String × (List String × ℕ)))
    (d : ℚ) (scores : List (String × ℚ)) (v : String) : ℚ :=
  nodes.foldl
    (fun rank u =>
      match assocGet out_links u with
      | some (links, deg) =>
          if v ∈ links then
            if (deg : ℚ) > 0 then
              rank + d * (((assocGet scores u).getD 0) / (deg : ℚ))
            else rank
          else rank
      | none => rank)
    ((1 - d) / (nodes.length : ℚ))

/-- One full iteration of the custom PageRank loop: compute every node's
new score from the previous scores and accumulate
`total_diff = Σ |new − old|`. -/
def pagerankPass (nodes : List String)
    (out_links : List (String × (List String × ℕ)))
    (d : ℚ) (scores : List (String × ℚ)) : List (String × ℚ) × ℚ :=
  (nodes.map (fun v => (v, pagerankRank nodes out_links d scores v)),
   (nodes.map
     (fun v =>
       ratAbs (pagerankRank nodes out_links d scores v -
         (assocGet scores v).getD 0))).sum)

/-- The `for iteration in 0..max_iterations` loop: run passes until the
fuel runs out or the average absolute difference drops below `1e-6`;
returns the final scores and the number of iterations executed. -/
def pagerankLoop (nodes : List String)
    (out_links : List (String × (List String × ℕ)))
    (d : ℚ) : ℕ → List (String × ℚ) → List (String × ℚ) × ℕ
  | 0, scores => (scores, 0)
  | fuel + 1, scores =>
      let (new_scores, total_diff) := pagerankPass nodes out_links d scores
      if total_diff / (nodes.length : ℚ) < 1 / 1000000 then (new_scores, 1)
      else
        let (final_scores, used) := pagerankLoop nodes out_links d fuel new_scores
        (final_scores, used + 1)

/-- `calculate_pagerank_custom` from algorithms.rs, starting from the query
results (node uuids and directed edges): build the adjacency structures,
initialize every score to `1/|V|`, and iterate. -/
def calculate_pagerank_custom (nodes : List String)
    (edges : List (String × String)) (damping_factor : ℚ)
    (max_iterations : ℕ) : List (String × ℚ) × ℕ :=
  let out_links := buildOutLinks nodes edges
  let initial_score := 1 / (nodes.length : ℚ)
  let scores := nodes.map (fun n => (n, initial_score))
  pagerankLoop nodes out_links damping_factor max_iterations scores

/-! ## Delta tracker (graph-visualizer-rust/src/delta_tracker.rs)

The tracker's `HashMap` snapshots are association lists; the wall-clock
`timestamp` field of `GraphDelta` is omitted (real time is outside the
embedding and no claim mentions it). -/

/-- `serde_json::Value` with structural equality (nested `Array`/`Object`
values elided: the claims compare property maps only through structural
equality of values, which the remaining variants exercise). -/
inductive JsonValue where
  | null
  | bool (b : Bool)
  | num (q : ℚ)
  | str (s : String)
deriving DecidableEq

/-- `Node` from graph-visualizer-rust/src/main.rs. -/
structure VNode where
  id : String
  label : String
  node_type : String
  summary : Option String
  properties : List (String × JsonValue)
deriving DecidableEq

/-- `Edge` from graph-visualizer-rust/src/main.rs (`f64` weight as `ℚ`). -/
structure VEdge where
  from' : String
  to' : String
  edge_type : String
  weight : ℚ
deriving DecidableEq

/-- `DeltaOperation` from delta_tracker.rs. -/
inductive DeltaOperation where
  | Initial
  | Update
  | Refresh
deriving DecidableEq, Repr

/-- `GraphDelta` from delta_tracker.rs (without the wall-clock timestamp). -/
structure GraphDelta where
  operation : DeltaOperation
  nodes_added : List VNode
  nodes_updated : List VNode
  nodes_removed : List String
  edges_added : List VEdge
  edges_updated : List VEdge
  edges_removed : List (String × String)
  sequence : ℕ
deriving DecidableEq

/-- `IGNORED_FIELDS` from `properties_equal_meaningful`. -/
def IGNORED_FIELDS : List String :=
  ["created_at", "degree_centrality", "pagerank_centrality",
   "betweenness_centrality", "eigenvector_centrality"]

/-- `properties_equal_meaningful` from delta_tracker.rs: compare property
maps ignoring the volatile fields, in both directions. -/
def properties_equal_meaningful (a b : List (String × JsonValue)) : Bool :=
  a.all (fun p =>
    if IGNORED_FIELDS.contains p.1 then true
    else match assocGet b p.1 with
      | some value_b => decide (p.2 = value_b)
      | none => false) &&
  b.all (fun p => IGNORED_FIELDS.contains p.1 || (assocGet a p.1).isSome)

/-- `nodes_equal` from delta_tracker.rs. -/
def nodes_equal (a b : VNode) : Bool :=
  decide (a.id = b.id) && decide (a.label = b.label) &&
  decide (a.node_type = b.node_type) && decide (a.summary = b.summary) &&
  properties_equal_meaningful a.properties b.properties

/-- `edges_equal` from delta_tracker.rs (float tolerance `1e-3`). -/
def edges_equal (a b : VEdge) : Bool :=
  decide (a.from' = b.from') && decide (a.to' = b.to') &&
  decide (a.edge_type = b.edge_type) &&
  decide (ratAbs (a.weight - b.weight) < 1 / 1000)

/-- `DeltaTracker` state from delta_tracker.rs. -/
structure DeltaTracker where
  current_nodes : List (String × VNode)
  current_edges : List ((String × String) × VEdge)
  sequence_counter : ℕ
  delta_history : List GraphDelta
  max_history_size : ℕ

/-- `DeltaTracker::new`. -/
def DeltaTracker.new : DeltaTracker :=
  { current_nodes := []
    current_edges := []
    sequence_counter := 0
    delta_history := []
    max_history_size := 100 }

/-- The `while history.len() > self.max_history_size { history.pop_front() }`
loop: pop the front element while the history is over capacity. -/
def trimHistory (max_size : ℕ) : List GraphDelta → List GraphDelta
  | [] => []
  | d :: rest =>
      if (d :: rest).length > max_size then trimHistory max_size rest
      else d :: rest

/-- `DeltaTracker::compute_delta` from delta_tracker.rs: diff the incoming
snapshot against the stored one, replace the stored snapshot, increment the
sequence counter, tag the first delta `Initial` and later ones `Update`,
and append to the bounded history.  Returns the delta and the new state. -/
def DeltaTracker.compute_delta (self : DeltaTracker)
    (new_nodes : List VNode) (new_edges : List VEdge) :
    GraphDelta × DeltaTracker :=
  let new_nodes_map := new_nodes.foldl (fun m n => mapInsert m n.id n) []
  let new_edges_map := new_edges.foldl (fun m e => mapInsert m (e.from', e.to') e) []
  let nodes_added := (new_nodes_map.filter
    (fun p => (assocGet self.current_nodes p.1).isNone)).map Prod.snd
  let nodes_updated := new_nodes_map.filterMap
    (fun p => match assocGet self.current_nodes p.1 with
      | some old_node => if !nodes_equal old_node p.2 then some p.2 else none
      | none => none)
  let nodes_removed := (self.current_nodes.filter
    (fun p => (assocGet new_nodes_map p.1).isNone)).map Prod.fst
  let edges_added := (new_edges_map.filter
    (fun p => (assocGet self.current_edges p.1).isNone)).map Prod.snd
  let edges_updated := new_edges_map.filterMap
    (fun p => match assocGet self.current_edges p.1 with
      | some old_edge => if !edges_equal old_edge p.2 then some p.2 else none
      | none => none)
  let edges_removed := (self.current_edges.filter
    (fun p => (assocGet new_edges_map p.1).isNone)).map Prod.fst
  let sequence := self.sequence_counter + 1
  let delta : GraphDelta :=
    { operation := if sequence = 1 then .Initial else .Update
      nodes_added := nodes_added
      nodes_updated := nodes_updated
      nodes_removed := nodes_removed
      edges_added := edges_added
      edges_updated := edges_updated
      edges_removed := edges_removed
      sequence := sequence }
  (delta,
   { current_nodes := new_nodes_map
     current_edges := new_edges_map
     sequence_counter := sequence
     delta_history := trimHistory self.max_history_size (self.delta_history ++ [delta])
     max_history_size := self.max_history_size })

/-- `DeltaTracker::reset`. -/
def DeltaTracker.reset (self : DeltaTracker) : DeltaTracker :=
  { current_nodes := []
    current_edges := []
    sequence_counter := 0
    delta_history := []
    max_history_size := self.max_history_size }

/-- `DeltaTracker::get_changes_since`: historical deltas with sequence
greater than `since_sequence`, up to `limit`. -/
def DeltaTracker.get_changes_since (self : DeltaTracker)
    (since_sequence : ℕ) (limit : ℕ) : List GraphDelta :=
  (self.delta_history.filter (fun delta => delta.sequence > since_sequence)).take limit

/-- A sequence of `compute_delta` calls threading the tracker state,
collecting the returned deltas. -/
def DeltaTracker.runComputeDeltas (self : DeltaTracker) :
    List (List VNode × List VEdge) → List GraphDelta
  | [] => []
  | (ns, es) :: rest =>
      let (delta, next) := self.compute_delta ns es
      delta :: next.runComputeDeltas rest

/-! ## Theorems -/

/-- The quote-tracking loop pushes every character unchanged. -/
theorem quoteLoop_eq (cs : List Char) :
    ∀ inQuotes result, quoteLoop cs inQuotes result = result ++ cs := by
  induction cs with
  | nil => intro inQuotes result; simp [quoteLoop]
  | cons c cs ih => intro inQuotes result; simp [quoteLoop, ih]

/-- The sanitizer is exactly the regex-escaping stage. -/
theorem sanitize_eq_replaceAll (q : List Char) :
    sanitize_lucene_query q = replaceAllSpecial q := by
  simp [sanitize_lucene_query, quoteLoop_eq]

/-- The regex-escaping stage maps every character independently. -/
theorem replaceAllSpecial_eq_bind (q : List Char) :
    replaceAllSpecial q =
      q.flatMap (fun c => if isSpecialChar c then ['\\', c] else [c]) := by
  induction q with
  | nil => rfl
  | cons c cs ih => simp [replaceAllSpecial, ih]

/-- C5 counterexample: the sanitizer does not lowercase (`"A"` stays
`"A"`, the claimed rules would give `"a"`), and a double-quoted phrase
segment is NOT left unmodified (the `+` inside `"a+b"` is escaped). -/
theorem C5_counterexample :
    sanitize_lucene_query ['A'] = ['A'] ∧ ['A'] ≠ ['a'] ∧
    sanitize_lucene_query ['"', 'a', '+', 'b', '"'] =
      ['"', 'a', '\\', '+', 'b', '"'] ∧
    ['"', 'a', '\\', '+', 'b', '"'] ≠ ['"', 'a', '+', 'b', '"'] := by
  refine ⟨?_, by decide, ?_, by decide⟩ <;> rfl

/-- C5 amended: `sanitize_lucene_query` escapes each character of the set
`\ + - ! ( ) { } [ ] ^ ~ * ? : /` by prefixing a backslash, uniformly over
the whole query (double-quoted segments included; the double quote itself
is never escaped since it is not in the set), performs no lowercasing, and
appends no wildcard: the output is exactly the character-wise escaping of
the input. -/
theorem C5_amended (q : List Char) :
    sanitize_lucene_query q =
      q.flatMap (fun c => if isSpecialChar c then ['\\', c] else [c]) := by
  rw [sanitize_eq_replaceAll, replaceAllSpecial_eq_bind]

/-- C6 counterexample: the sanitizer is not idempotent — sanitizing the
already-sanitized query `\+` escapes the backslash and the plus again. -/
theorem C6_counterexample :
    sanitize_lucene_query ['+'] = ['\\', '+'] ∧
    sanitize_lucene_query (sanitize_lucene_query ['+']) =
      ['\\', '\\', '\\', '+'] ∧
    sanitize_lucene_query (sanitize_lucene_query ['+']) ≠
      sanitize_lucene_query ['+'] := by
  refine ⟨by rfl, by rfl, by decide⟩

/-- C6 amended: on queries containing no special character the sanitizer
is the identity, hence idempotent; idempotence fails as soon as a special
character is present (see the counterexample), because the escaping
backslash is itself re-escaped. -/
theorem C6_amended (q : List Char) (h : ∀ c ∈ q, isSpecialChar c = false) :
    sanitize_lucene_query q = q ∧
    sanitize_lucene_query (sanitize_lucene_query q) =
      sanitize_lucene_query q := by
  have hq : sanitize_lucene_query q = q := by
    rw [sanitize_eq_replaceAll, replaceAllSpecial_eq_bind]
    induction q with
    | nil => rfl
    | cons c cs ih =>
        have hc := h c (by simp)
        have ih' := ih (fun c' hc' => h c' (by simp [hc']))
        simp [hc, ih']
  exact ⟨hq, by rw [hq, hq]⟩

/-- C6 witness: the special-character-free query `hi` is a fixed point. -/
theorem C6_witness :
    (∀ c ∈ ['h', 'i'], isSpecialChar c = false) ∧
    (sanitize_lucene_query ['h', 'i'] = ['h', 'i'] ∧
     sanitize_lucene_query (sanitize_lucene_query ['h', 'i']) =
       sanitize_lucene_query ['h', 'i']) :=
  ⟨by decide, C6_amended ['h', 'i'] (by decide)⟩

/-- C8: with the default thresholds (warm 10, hot 100), `calculate_ttl`
returns 60 s for up to 10 accesses, 300 s for 11–100 accesses and 1800 s
above 100; in particular the 1st, 11th and 101st accesses yield 60, 300
and 1800 seconds. -/
theorem C8_adaptive_ttl (n : ℕ) :
    (n ≤ 10 → AdaptiveTTL.default.calculate_ttl n = 60) ∧
    (10 < n → n ≤ 100 → AdaptiveTTL.default.calculate_ttl n = 300) ∧
    (100 < n → AdaptiveTTL.default.calculate_ttl n = 1800) ∧
    AdaptiveTTL.default.calculate_ttl 1 = 60 ∧
    AdaptiveTTL.default.calculate_ttl 11 = 300 ∧
    AdaptiveTTL.default.calculate_ttl 101 = 1800 := by
  refine ⟨fun h => ?_, fun h h' => ?_, fun h => ?_, by rfl, by rfl, by rfl⟩ <;>
    · simp only [AdaptiveTTL.calculate_ttl, AdaptiveTTL.default]
      split <;> first | rfl | omega | (split <;> first | rfl | omega)

/-- C8 witness: the general bounds applied at access count 3. -/
theorem C8_witness : 3 ≤ 10 ∧ AdaptiveTTL.default.calculate_ttl 3 = 60 :=
  ⟨by decide, (C8_adaptive_ttl 3).1 (by decide)⟩

/-! ### Delta tracker claims -/

/-- One `compute_delta` call returns sequence `counter + 1`, advances the
counter to `counter + 1`, and tags the delta `Initial` exactly when that
sequence is 1. -/
theorem compute_delta_sequence (t : DeltaTracker) (ns : List VNode)
    (es : List VEdge) :
    (t.compute_delta ns es).1.sequence = t.sequence_counter + 1 ∧
    (t.compute_delta ns es).2.sequence_counter = t.sequence_counter + 1 ∧
    (t.compute_delta ns es).1.operation =
      (if t.sequence_counter + 1 = 1 then DeltaOperation.Initial
       else DeltaOperation.Update) :=
  ⟨rfl, rfl, rfl⟩

/-- The i-th delta of a run started at counter `c` has sequence `c+i+1`. -/
theorem runComputeDeltas_get (inputs : List (List VNode × List VEdge)) :
    ∀ (t : DeltaTracker) (i : ℕ)
      (hi : i < (t.runComputeDeltas inputs).length),
      ((t.runComputeDeltas inputs).get ⟨i, hi⟩).sequence =
        t.sequence_counter + i + 1 ∧
      ((t.runComputeDeltas inputs).get ⟨i, hi⟩).operation =
        (if t.sequence_counter + i + 1 = 1 then DeltaOperation.Initial
         else DeltaOperation.Update) := by
  induction inputs with
  | nil =>
      intro t i hi
      simp [DeltaTracker.runComputeDeltas] at hi
  | cons p rest ih =>
      intro t i hi
      obtain ⟨ns, es⟩ := p
      match i with
      | 0 =>
          constructor
          · simpa [DeltaTracker.runComputeDeltas] using
              (compute_delta_sequence t ns es).1
          · simpa [DeltaTracker.runComputeDeltas] using
              (compute_delta_sequence t ns es).2.2
      | i + 1 =>
          have step := compute_delta_sequence t ns es
          have hi' : i < ((t.compute_delta ns es).2.runComputeDeltas rest).length := by
            simpa [DeltaTracker.runComputeDeltas] using hi
          have := ih (t.compute_delta ns es).2 i hi'
          rw [step.2.1] at this
          refine ⟨?_, ?_⟩
          · have h1 := this.1
            simpa [DeltaTracker.runComputeDeltas, Nat.add_assoc,
              Nat.add_comm, Nat.add_left_comm] using h1
          · have h2 := this.2
            have harith : t.sequence_counter + 1 + i + 1 =
                t.sequence_counter + (i + 1) + 1 := by omega
            rw [harith] at h2
            simpa [DeltaTracker.runComputeDeltas] using h2

/-- C1: on a freshly created tracker, the n-th `compute_delta` call
returns sequence `n` (sequences start at 1 and increase by exactly one per
call, so they never repeat and never regress), and the delta with
sequence 1 carries operation `initial` while every later delta carries
`update`. -/
theorem C1_delta_sequence (inputs : List (List VNode × List VEdge)) (i : ℕ)
    (hi : i < (DeltaTracker.new.runComputeDeltas inputs).length) :
    ((DeltaTracker.new.runComputeDeltas inputs).get ⟨i, hi⟩).sequence = i + 1 ∧
    ((DeltaTracker.new.runComputeDeltas inputs).get ⟨i, hi⟩).operation =
      (if i = 0 then DeltaOperation.Initial else DeltaOperation.Update) := by
  have h := runComputeDeltas_get inputs DeltaTracker.new i hi
  have hc : DeltaTracker.new.sequence_counter = 0 := rfl
  rw [hc] at h
  refine ⟨by simpa using h.1, ?_⟩
  rw [h.2]
  by_cases h0 : i = 0
  · simp [h0]
  · have : ¬ (0 + i + 1 = 1) := by omega
    simp [h0, this]

/-- C1 witness: two calls on a fresh tracker; the second delta has
sequence 2 and operation `update`. -/
theorem C1_witness :
    ((DeltaTracker.new.runComputeDeltas [([], []), ([], [])]).get
      ⟨1, by decide⟩).sequence = 1 + 1 ∧
    ((DeltaTracker.new.runComputeDeltas [([], []), ([], [])]).get
      ⟨1, by decide⟩).operation =
      (if 1 = 0 then DeltaOperation.Initial else DeltaOperation.Update) :=
  C1_delta_sequence [([], []), ([], [])] 1 (by decide)

/-- Unfolding lemma: the history stored by `compute_delta` is the old
history with the new delta appended, trimmed to capacity. -/
theorem compute_delta_history (t : DeltaTracker) (ns : List VNode)
    (es : List VEdge) :
    (t.compute_delta ns es).2.delta_history =
      trimHistory t.max_history_size
        (t.delta_history ++ [(t.compute_delta ns es).1]) := rfl

/-- A one-element history is within any positive capacity. -/
theorem trimHistory_singleton (m : ℕ) (d : GraphDelta) (h : 1 ≤ m) :
    trimHistory m [d] = [d] := by
  have : ¬ ((1 : ℕ) > m) := by omega
  simp [trimHistory, this]

/-- C10: `reset` clears the snapshot, the counter and the history; the
next `compute_delta` then returns sequence 1 with operation `initial`
again (sequence numbers are reused across resets), its delta is the whole
history (so `get_changes_since` sees only post-reset deltas), and
`get_changes_since` on the freshly reset tracker returns nothing. -/
theorem C10_reset (t : DeltaTracker) (ns : List VNode) (es : List VEdge)
    (hcap : 1 ≤ t.max_history_size) :
    t.reset.current_nodes = [] ∧
    t.reset.current_edges = [] ∧
    t.reset.sequence_counter = 0 ∧
    t.reset.delta_history = [] ∧
    (t.reset.compute_delta ns es).1.sequence = 1 ∧
    (t.reset.compute_delta ns es).1.operation = DeltaOperation.Initial ∧
    (t.reset.compute_delta ns es).2.delta_history =
      [(t.reset.compute_delta ns es).1] ∧
    (∀ since limit, t.reset.get_changes_since since limit = []) := by
  refine ⟨rfl, rfl, rfl, rfl, rfl, rfl, ?_, fun since limit => ?_⟩
  · rw [compute_delta_history]
    show trimHistory t.max_history_size
      ([] ++ [(t.reset.compute_delta ns es).1]) = _
    rw [List.nil_append]
    exact trimHistory_singleton _ _ hcap
  · simp [DeltaTracker.get_changes_since, DeltaTracker.reset]

/-- C10 witness: resetting a fresh tracker (history capacity 100). -/
theorem C10_witness :
    1 ≤ DeltaTracker.new.max_history_size ∧
    (DeltaTracker.new.reset.current_nodes = [] ∧
     DeltaTracker.new.reset.current_edges = [] ∧
     DeltaTracker.new.reset.sequence_counter = 0 ∧
     DeltaTracker.new.reset.delta_history = [] ∧
     (DeltaTracker.new.reset.compute_delta [] []).1.sequence = 1 ∧
     (DeltaTracker.new.reset.compute_delta [] []).1.operation =
       DeltaOperation.Initial ∧
     (DeltaTracker.new.reset.compute_delta [] []).2.delta_history =
       [(DeltaTracker.new.reset.compute_delta [] []).1] ∧
     (∀ since limit,
       DeltaTracker.new.reset.get_changes_since since limit = [])) :=
  ⟨by decide, C10_reset DeltaTracker.new [] [] (by decide)⟩

/-! ### PageRank claim -/

/-- Unfolding equation for one step of the bounded PageRank loop. -/
theorem pagerankLoop_succ (nodes : List String)
    (out_links : List (String × (List String × ℕ))) (d : ℚ) (fuel : ℕ)
    (scores : List (String × ℚ)) :
    pagerankLoop nodes out_links d (fuel + 1) scores =
      (let (new_scores, total_diff) := pagerankPass nodes out_links d scores
       if total_diff / (nodes.length : ℚ) < 1 / 1000000 then (new_scores, 1)
       else
         let (final_scores, used) := pagerankLoop nodes out_links d fuel new_scores
         (final_scores, used + 1)) := rfl

/-- C7: on the directed 3-cycle `A→B, B→C, C→A` with damping 0.85 and at
most 10 iterations, the custom iterative PageRank returns the uniform
vector `(1/3, 1/3, 1/3)` and stops after 1 iteration (the first pass
already has mean absolute difference `0 < 1e-6`), hence within 10. -/
theorem C7_pagerank_cycle :
    calculate_pagerank_custom ["A", "B", "C"]
        [("A", "B"), ("B", "C"), ("C", "A")] (17/20) 10 =
      ([("A", 1/3), ("B", 1/3), ("C", 1/3)], 1) ∧ (1 : ℕ) ≤ 10 := by
  refine ⟨?_, by omega⟩
  have hlinks : buildOutLinks ["A", "B", "C"]
      [("A", "B"), ("B", "C"), ("C", "A")] =
      [("A", (["B"], 1)), ("B", (["C"], 1)), ("C", (["A"], 1))] := by decide
  show pagerankLoop ["A", "B", "C"]
      (buildOutLinks ["A", "B", "C"] [("A", "B"), ("B", "C"), ("C", "A")])
      (17/20) 10
      (List.map (fun n => (n, 1 / ((List.length ["A", "B", "C"] : ℕ) : ℚ)))
        ["A", "B", "C"]) =
      ([("A", 1/3), ("B", 1/3), ("C", 1/3)], 1)
  have hmap : List.map
      (fun n => (n, 1 / ((List.length ["A", "B", "C"] : ℕ) : ℚ)))
      ["A", "B", "C"] = [("A", (1:ℚ)/3), ("B", 1/3), ("C", 1/3)] := by
    norm_num
  rw [hlinks, hmap]
  have hpass : pagerankPass ["A", "B", "C"]
      [("A", (["B"], 1)), ("B", (["C"], 1)), ("C", (["A"], 1))] (17/20)
      [("A", (1:ℚ)/3), ("B", 1/3), ("C", 1/3)] =
      ([("A", (1:ℚ)/3), ("B", 1/3), ("C", 1/3)], 0) := by
    simp [pagerankPass, pagerankRank, assocGet, List.find?, ratAbs]
    norm_num
  rw [show (10 : ℕ) = 9 + 1 from rfl, pagerankLoop_succ, hpass]
  norm_num

/-! ### Search orchestrator failure semantics -/

/-- A concrete node for counterexamples and witnesses. -/
def sampleSNode : SNode :=
  { uuid := "n1"
    name := "Alpha"
    node_type := "Entity"
    summary := none
    created_at := 0
    embedding := none
    group_id := none
    centrality := none }

/-- C2 counterexample: with two enabled methods where full-text fails and
similarity succeeds with a node, the method loop — and with it the whole
compute closure of `search_nodes` — returns the full-text error.  The
successful similarity method's results are discarded, and an error is
surfaced although not all methods failed, contradicting both halves of the
claim. -/
theorem C2_counterexample :
    searchNodesMethodResults [SearchMethod.Fulltext, SearchMethod.Similarity]
      (Except.error "store unavailable") (Except.ok [sampleSNode]) true =
      Except.error "store unavailable" ∧
    searchNodesCompute [SearchMethod.Fulltext, SearchMethod.Similarity]
      (Except.error "store unavailable") (Except.ok [sampleSNode]) true
      (fun rs => Except.ok rs.flatten) =
      Except.error "store unavailable" := by
  constructor <;> rfl

/-- The method loop surfaces the error of the first failing method. -/
theorem searchNodesMethodResults_error {ε : Type}
    (ms₁ : List SearchMethod) (m : SearchMethod) (ms₂ : List SearchMethod)
    (run_fulltext run_similarity : Except ε (List SNode)) (has_vector : Bool)
    (e : ε)
    (hok : ∀ m' ∈ ms₁, ∃ v,
      searchMethodStep run_fulltext run_similarity has_vector m' = Except.ok v)
    (herr : searchMethodStep run_fulltext run_similarity has_vector m =
      Except.error e) :
    searchNodesMethodResults (ms₁ ++ m :: ms₂) run_fulltext run_similarity
      has_vector = Except.error e := by
  induction ms₁ with
  | nil =>
      simp only [List.nil_append, searchNodesMethodResults, herr]
      rfl
  | cons m' ms₁ ih =>
      obtain ⟨v, hv⟩ := hok m' (by simp)
      have ih' := ih (fun x hx => hok x (by simp [hx]))
      rw [List.cons_append]
      show (do
        let nodes ← searchMethodStep run_fulltext run_similarity has_vector m'
        let remaining ← searchNodesMethodResults (ms₁ ++ m :: ms₂)
          run_fulltext run_similarity has_vector
        pure (nodes :: remaining)) = Except.error e
      rw [hv]
      show (do
        let remaining ← searchNodesMethodResults (ms₁ ++ m :: ms₂)
          run_fulltext run_similarity has_vector
        pure (v :: remaining)) = Except.error e
      rw [ih']
      rfl

/-- C2 amended: when any enabled method fails, the compute closure of
`search_nodes` aborts with the FIRST failing method's error — the methods
after it never run, results of earlier successful methods are discarded,
and an error is surfaced even though not all methods failed.  Only when no
method fails do the collected lists reach the reranker. -/
theorem C2_amended {ε : Type}
    (ms₁ : List SearchMethod) (m : SearchMethod) (ms₂ : List SearchMethod)
    (run_fulltext run_similarity : Except ε (List SNode)) (has_vector : Bool)
    (rerank : List (List SNode) → Except ε (List SNode)) (e : ε)
    (hok : ∀ m' ∈ ms₁, ∃ v,
      searchMethodStep run_fulltext run_similarity has_vector m' = Except.ok v)
    (herr : searchMethodStep run_fulltext run_similarity has_vector m =
      Except.error e) :
    searchNodesMethodResults (ms₁ ++ m :: ms₂) run_fulltext run_similarity
      has_vector = Except.error e ∧
    searchNodesCompute (ms₁ ++ m :: ms₂) run_fulltext run_similarity
      has_vector rerank = Except.error e := by
  have h := searchNodesMethodResults_error ms₁ m ms₂ run_fulltext
    run_similarity has_vector e hok herr
  refine ⟨h, ?_⟩
  simp only [searchNodesCompute, h]
  rfl

/-- C2 witness: full-text succeeds, similarity fails; the closure returns
the similarity error. -/
theorem C2_witness :
    (∀ m' ∈ [SearchMethod.Fulltext], ∃ v,
      searchMethodStep (ε := String) (Except.ok [sampleSNode])
        (Except.error "sim down") true m' = Except.ok v) ∧
    searchMethodStep (ε := String) (Except.ok [sampleSNode])
      (Except.error "sim down") true SearchMethod.Similarity =
      Except.error "sim down" ∧
    (searchNodesMethodResults
        ([SearchMethod.Fulltext] ++ SearchMethod.Similarity :: [])
        (Except.ok [sampleSNode]) (Except.error "sim down") true =
        Except.error "sim down" ∧
      searchNodesCompute
        ([SearchMethod.Fulltext] ++ SearchMethod.Similarity :: [])
        (Except.ok [sampleSNode]) (Except.error "sim down") true
        (fun rs => Except.ok rs.flatten) = Except.error "sim down") :=
  ⟨by intro m' hm'
      simp only [List.mem_singleton] at hm'
      subst hm'
      exact ⟨[sampleSNode], rfl⟩,
   rfl,
   C2_amended [SearchMethod.Fulltext] SearchMethod.Similarity []
     (Except.ok [sampleSNode]) (Except.error "sim down") true
     (fun rs => Except.ok rs.flatten) "sim down"
     (by intro m' hm'
         simp only [List.mem_singleton] at hm'
         subst hm'
         exact ⟨[sampleSNode], rfl⟩)
     rfl⟩

/-! ### Multi-layer cache error semantics -/

/-- C3 counterexample: when the Bloom filter passes the key, the KV read
misses and `compute` fails, `get_or_compute` returns `Ok(None)` — not the
compute error, which the claim says is surfaced to the caller.  (Nothing is
stored, as the claim also says.) -/
theorem C3_counterexample :
    EnhancedCache.get_or_compute (T := ℕ) (ε := String) AdaptiveTTL.default
      true 1 none (Except.error "boom") =
      ⟨Except.ok none, none, false⟩ ∧
    (EnhancedCache.get_or_compute (T := ℕ) (ε := String) AdaptiveTTL.default
      true 1 none (Except.error "boom")).result ≠ Except.error "boom" :=
  ⟨rfl, fun h => Except.noConfusion h⟩

/-- C3 amended: when `compute` fails, `get_or_compute` swallows the error
— the caller receives `Ok(None)` rather than the error — while, as the
claim states, nothing is stored in the KV store for the key and the key is
not marked in the negative cache. -/
theorem C3_error_swallowed {T ε : Type} (adaptive_ttl : AdaptiveTTL)
    (access_count : ℕ) (compute : Except ε (Option T)) (e : ε)
    (h : compute = Except.error e) :
    (EnhancedCache.get_or_compute adaptive_ttl true access_count none
      compute).result = Except.ok none ∧
    (EnhancedCache.get_or_compute adaptive_ttl true access_count none
      compute).stored = none ∧
    (EnhancedCache.get_or_compute adaptive_ttl true access_count none
      compute).marked_exists = false := by
  subst h
  exact ⟨rfl, rfl, rfl⟩

/-- C3 witness: a concrete failing compute. -/
theorem C3_witness :
    ((Except.error "boom" : Except String (Option ℕ)) = Except.error "boom") ∧
    ((EnhancedCache.get_or_compute AdaptiveTTL.default true 1 none
        (Except.error "boom" : Except String (Option ℕ))).result =
        Except.ok none ∧
      (EnhancedCache.get_or_compute AdaptiveTTL.default true 1 none
        (Except.error "boom" : Except String (Option ℕ))).stored = none ∧
      (EnhancedCache.get_or_compute AdaptiveTTL.default true 1 none
        (Except.error "boom" : Except String (Option ℕ))).marked_exists =
        false) :=
  ⟨rfl,
   C3_error_swallowed AdaptiveTTL.default 1 (Except.error "boom") "boom" rfl⟩

/-! ### Centrality-boosted reranking claim -/

/-- The scored item list built inside `centrality_boosted_rerank`. -/
def cbrScored {T : Type} (cos_sim : List ℚ → List ℚ → ℚ) (query : List ℚ)
    (get_embedding : T → Option (List ℚ)) (get_centrality : T → Option ℚ)
    (boost_factor : ℚ) (items : List T) : List (T × ℚ) :=
  items.map
    (fun item =>
      (item, cbrScore cos_sim query get_embedding get_centrality boost_factor item))

/-- The stably sorted (descending combined score) item list of
`centrality_boosted_rerank`, before `take limit`. -/
def cbrSorted {T : Type} (cos_sim : List ℚ → List ℚ → ℚ) (query : List ℚ)
    (get_embedding : T → Option (List ℚ)) (get_centrality : T → Option ℚ)
    (boost_factor : ℚ) (items : List T) : List (T × ℚ) :=
  List.insertionSort scoreDesc
    (cbrScored cos_sim query get_embedding get_centrality boost_factor items)

/-- C9: with a non-empty query embedding, a candidate `x` without an
embedding is scored `0.5 + centrality·boost` (base relevance 0.5, not 0);
`centrality_boosted_rerank` returns the sorted scored list truncated to
`limit`; `(x, its score)` occurs in that sorted list; and `x` is placed
strictly before any embedded candidate `y` whose cosine relevance plus
boost is below `x`'s score — `x` outranks `y`. -/
theorem C9_no_embedding_rerank {T : Type} (cos_sim : List ℚ → List ℚ → ℚ)
    (items : List T) (q : List ℚ) (get_embedding : T → Option (List ℚ))
    (get_centrality : T → Option ℚ) (boost_factor : ℚ) (limit : ℕ)
    (x y : T) (ey : List ℚ)
    (hq : q ≠ [])
    (hx : x ∈ items) (hy : y ∈ items)
    (hex : get_embedding x = none) (hey : get_embedding y = some ey)
    (hlt : cos_sim q ey + (get_centrality y).getD 0 * boost_factor <
      1/2 + (get_centrality x).getD 0 * boost_factor) :
    cbrScore cos_sim q get_embedding get_centrality boost_factor x =
      1/2 + (get_centrality x).getD 0 * boost_factor ∧
    cbrScore cos_sim q get_embedding get_centrality boost_factor y =
      cos_sim q ey + (get_centrality y).getD 0 * boost_factor ∧
    centrality_boosted_rerank cos_sim items (some q) get_embedding
      get_centrality boost_factor limit =
      ((cbrSorted cos_sim q get_embedding get_centrality boost_factor
        items).take limit).map Prod.fst ∧
    (x, cbrScore cos_sim q get_embedding get_centrality boost_factor x) ∈
      cbrSorted cos_sim q get_embedding get_centrality boost_factor items ∧
    (∀ (i j : Fin (cbrSorted cos_sim q get_embedding get_centrality
        boost_factor items).length),
      (cbrSorted cos_sim q get_embedding get_centrality boost_factor
        items).get i =
        (x, cbrScore cos_sim q get_embedding get_centrality boost_factor x) →
      (cbrSorted cos_sim q get_embedding get_centrality boost_factor
        items).get j =
        (y, cbrScore cos_sim q get_embedding get_centrality boost_factor y) →
      (i : ℕ) < (j : ℕ)) := by
  have hsx : cbrScore cos_sim q get_embedding get_centrality boost_factor x =
      1/2 + (get_centrality x).getD 0 * boost_factor := by
    simp [cbrScore, hq, hex]
  have hsy : cbrScore cos_sim q get_embedding get_centrality boost_factor y =
      cos_sim q ey + (get_centrality y).getD 0 * boost_factor := by
    simp [cbrScore, hq, hey]
  have hne : items.isEmpty = false := by
    cases items with
    | nil => cases hx
    | cons a l => rfl
  refine ⟨hsx, hsy, ?_, ?_, ?_⟩
  · simp [centrality_boosted_rerank, hne, cbrSorted, cbrScored]
  · exact (List.mem_insertionSort scoreDesc).mpr
      (List.mem_map_of_mem _ hx)
  · intro i j hi hj
    have hsorted : List.Sorted scoreDesc
        (cbrSorted cos_sim q get_embedding get_centrality boost_factor items) :=
      List.sorted_insertionSort scoreDesc _
    rcases lt_trichotomy (i : ℕ) (j : ℕ) with h | h | h
    · exact h
    · exfalso
      have : (x, cbrScore cos_sim q get_embedding get_centrality boost_factor x) =
          (y, cbrScore cos_sim q get_embedding get_centrality boost_factor y) := by
        rw [← hi, ← hj]
        congr 1
        exact Fin.ext h
      have := congrArg Prod.snd this
      simp only [hsx, hsy] at this
      rw [this] at hlt
      exact lt_irrefl _ hlt
    · exfalso
      have hrel := hsorted.rel_get_of_lt (a := j) (b := i) (by exact h)
      rw [hi, hj] at hrel
      simp only [scoreDesc, hsx, hsy] at hrel
      exact absurd (lt_of_lt_of_le hlt hrel) (lt_irrefl _)

/-- Concrete cosine function for the C9 witness (constant 0, e.g. the
cosine of orthogonal vectors). -/
def w9cos : List ℚ → List ℚ → ℚ := fun _ _ => 0

/-- Concrete embedding lookup for the C9 witness: only `y` is embedded. -/
def w9emb : String → Option (List ℚ) :=
  fun s => if s = "y" then some [1] else none

/-- Concrete centrality lookup for the C9 witness. -/
def w9cent : String → Option ℚ :=
  fun s => if s = "x" then some 1 else some 0

/-- C9 witness: the un-embedded, high-centrality candidate `x` outranks
the embedded, zero-centrality candidate `y`. -/
theorem C9_witness :
    (([1] : List ℚ) ≠ []) ∧
    ("x" ∈ ["x", "y"]) ∧ ("y" ∈ ["x", "y"]) ∧
    (w9emb "x" = none) ∧ (w9emb "y" = some [1]) ∧
    (w9cos [1] [1] + (w9cent "y").getD 0 * 1 <
      1/2 + (w9cent "x").getD 0 * 1) ∧
    (cbrScore w9cos [1] w9emb w9cent 1 "x" =
        1/2 + (w9cent "x").getD 0 * 1 ∧
      cbrScore w9cos [1] w9emb w9cent 1 "y" =
        w9cos [1] [1] + (w9cent "y").getD 0 * 1 ∧
      centrality_boosted_rerank w9cos ["x", "y"] (some [1]) w9emb w9cent 1 10 =
        ((cbrSorted w9cos [1] w9emb w9cent 1 ["x", "y"]).take 10).map Prod.fst ∧
      ("x", cbrScore w9cos [1] w9emb w9cent 1 "x") ∈
        cbrSorted w9cos [1] w9emb w9cent 1 ["x", "y"] ∧
      (∀ (i j : Fin (cbrSorted w9cos [1] w9emb w9cent 1 ["x", "y"]).length),
        (cbrSorted w9cos [1] w9emb w9cent 1 ["x", "y"]).get i =
          ("x", cbrScore w9cos [1] w9emb w9cent 1 "x") →
        (cbrSorted w9cos [1] w9emb w9cent 1 ["x", "y"]).get j =
          ("y", cbrScore w9cos [1] w9emb w9cent 1 "y") →
        (i : ℕ) < (j : ℕ))) :=
  ⟨by simp, by simp, by simp,
   by simp [w9emb], by simp [w9emb],
   by simp [w9cos, w9cent, show ("y" : String) ≠ "x" from by decide] <;>
      norm_num,
   C9_no_embedding_rerank w9cos ["x", "y"] [1] w9emb w9cent 1 10 "x" "y" [1]
     (by simp) (by simp) (by simp)
     (by simp [w9emb]) (by simp [w9emb])
     (by simp [w9cos, w9cent, show ("y" : String) ≠ "x" from by decide] <;>
         norm_num)⟩

/-! ### Reciprocal rank fusion claim -/

/-- Upserting adds `score` to the recorded total of exactly the entry
keyed `id`. -/
theorem assocScore_upsert {T : Type} (acc : List (String × T × ℚ))
    (id id' : String) (item : T) (score : ℚ) :
    assocScore (upsertScore acc id item score) id' =
      assocScore acc id' + (if id = id' then score else 0) := by
  induction acc with
  | nil =>
      by_cases h : id = id' <;> simp [upsertScore, assocScore, h]
  | cons e es ih =>
      by_cases h : e.1 = id
      · by_cases h' : id = id' <;>
          simp [upsertScore, assocScore, h, h'] <;> ring
      · have he : upsertScore (e :: es) id item score =
            e :: upsertScore es id item score := by simp [upsertScore, h]
        rw [he]
        simp only [assocScore, List.map_cons, List.sum_cons] at ih ⊢
        rw [ih]
        ring

/-- Folding one enumerated list into the score map adds each occurrence's
reciprocal-rank contribution. -/
theorem assocScore_foldl_pairs {T : Type} (k : ℚ) (get_id : T → String)
    (ps : List (ℕ × T)) :
    ∀ (acc : List (String × T × ℚ)) (id : String),
      assocScore (ps.foldl
        (fun acc p => upsertScore acc (get_id p.2) p.2 (1 / (k + (p.1 : ℚ) + 1)))
        acc) id =
      assocScore acc id +
        (ps.map (fun p =>
          if get_id p.2 = id then 1 / (k + (p.1 : ℚ) + 1) else 0)).sum := by
  induction ps with
  | nil => intro acc id; simp
  | cons p ps ih =>
      intro acc id
      rw [List.foldl_cons, ih, assocScore_upsert]
      simp only [List.map_cons, List.sum_cons]
      ring

/-- Folding the ranked lists accumulates the spec's per-list sums. -/
theorem assocScore_foldl_lists {T : Type} (k : ℚ) (get_id : T → String)
    (lists : List (List T)) :
    ∀ (acc : List (String × T × ℚ)) (id : String),
      assocScore (lists.foldl
        (fun acc list => list.enum.foldl
          (fun acc p => upsertScore acc (get_id p.2) p.2 (1 / (k + (p.1 : ℚ) + 1)))
          acc) acc) id =
      assocScore acc id +
        (lists.map (fun l => (l.enum.map (fun p =>
          if get_id p.2 = id then 1 / (k + (p.1 : ℚ) + 1) else 0)).sum)).sum := by
  induction lists with
  | nil => intro acc id; simp
  | cons l ls ih =>
      intro acc id
      rw [List.foldl_cons, ih, assocScore_foldl_pairs]
      simp only [List.map_cons, List.sum_cons]
      ring

/-- The accumulated score of every candidate is the spec's RRF score. -/
theorem assocScore_rrfScores {T : Type} (k : ℚ) (get_id : T → String)
    (ranked_lists : List (List T)) (id : String) :
    assocScore (rrfScores k get_id ranked_lists) id =
      rrfSpecScore k get_id ranked_lists id := by
  have h := assocScore_foldl_lists k get_id ranked_lists [] id
  simpa [rrfScores, rrfSpecScore, assocScore] using h

/-- C4 counterexample: on the input lists `[["a"], ["b"]]` with `k = 60`
both candidates tie at score `1/61`; first appearance (the score map's
insertion order) is `a` before `b`, yet under the reversed value-iteration
order — a permutation of the map's values, hence a possible `HashMap`
iteration order — the function returns `["b", "a"]`.  Tie order is the
hash map's, not first appearance. -/
theorem C4_counterexample :
    (rrfScores 60 (fun s : String => s) [["a"], ["b"]]).map
      (fun e => e.1) = ["a", "b"] ∧
    assocScore (rrfScores 60 (fun s : String => s) [["a"], ["b"]]) "a" =
      assocScore (rrfScores 60 (fun s : String => s) [["a"], ["b"]]) "b" ∧
    (((rrfScores 60 (fun s : String => s) [["a"], ["b"]]).map
        (fun e => e.2)).reverse).Perm
      ((rrfScores 60 (fun s : String => s) [["a"], ["b"]]).map
        (fun e => e.2)) ∧
    reciprocal_rank_fusion
      (((rrfScores 60 (fun s : String => s) [["a"], ["b"]]).map
        (fun e => e.2)).reverse) = ["b", "a"] ∧
    (["b", "a"] : List String) ≠ ["a", "b"] := by
  have hscores : rrfScores 60 (fun s : String => s) [["a"], ["b"]] =
      [("a", "a", 1 / (60 + ((0 : ℕ) : ℚ) + 1)),
       ("b", "b", 1 / (60 + ((0 : ℕ) : ℚ) + 1))] := by
    simp [rrfScores, List.enum, List.enumFrom, upsertScore,
      show ("b" : String) ≠ "a" from by decide]
  refine ⟨?_, ?_, ?_, ?_, by decide⟩
  · rw [hscores]; rfl
  · rw [hscores]
    simp [assocScore, show ("a" : String) ≠ "b" from by decide,
      show ("b" : String) ≠ "a" from by decide]
  · exact List.reverse_perm _
  · rw [hscores]
    simp [reciprocal_rank_fusion, List.insertionSort, List.orderedInsert,
      scoreDesc]

/-- C4 amended: for every hash-map iteration order of the accumulated
values (i.e. every permutation of them), reciprocal rank fusion assigns
each candidate the score `Σ` over input lists of `1/(k + rank + 1)`
(summed over the candidate's occurrences; with `k = 60` in the callers)
and returns the candidates — one per id — sorted by descending score.
The order among candidates with EQUAL scores is the hash map's iteration
order, which is unspecified; it is NOT guaranteed to be first appearance
(see the counterexample). -/
theorem C4_amended {T : Type} (k : ℚ) (get_id : T → String)
    (ranked_lists : List (List T)) (values_iter : List (T × ℚ))
    (hperm : values_iter.Perm
      ((rrfScores k get_id ranked_lists).map (fun e => e.2))) :
    (∀ id, assocScore (rrfScores k get_id ranked_lists) id =
      rrfSpecScore k get_id ranked_lists id) ∧
    (reciprocal_rank_fusion values_iter).Perm
      ((rrfScores k get_id ranked_lists).map (fun e => e.2.1)) ∧
    List.Sorted scoreDesc (List.insertionSort scoreDesc values_iter) := by
  refine ⟨fun id => assocScore_rrfScores k get_id ranked_lists id, ?_, ?_⟩
  · have h1 : (List.insertionSort scoreDesc values_iter).Perm
        ((rrfScores k get_id ranked_lists).map (fun e => e.2)) :=
      (List.perm_insertionSort scoreDesc values_iter).trans hperm
    have h2 := h1.map Prod.fst
    rw [List.map_map] at h2
    exact h2
  · exact List.sorted_insertionSort scoreDesc values_iter

/-- C4 witness: the amended theorem applied at the counterexample's input
with the identity iteration order. -/
theorem C4_witness :
    (((rrfScores 60 (fun s : String => s) [["a"], ["b"]]).map
        (fun e => e.2)).Perm
      ((rrfScores 60 (fun s : String => s) [["a"], ["b"]]).map
        (fun e => e.2))) ∧
    ((∀ id, assocScore (rrfScores 60 (fun s : String => s) [["a"], ["b"]]) id =
        rrfSpecScore 60 (fun s : String => s) [["a"], ["b"]] id) ∧
      (reciprocal_rank_fusion
        ((rrfScores 60 (fun s : String => s) [["a"], ["b"]]).map
          (fun e => e.2))).Perm
        ((rrfScores 60 (fun s : String => s) [["a"], ["b"]]).map
          (fun e => e.2.1)) ∧
      List.Sorted scoreDesc (List.insertionSort scoreDesc
        ((rrfScores 60 (fun s : String => s) [["a"], ["b"]]).map
          (fun e => e.2)))) :=
  ⟨List.Perm.refl _,
   C4_amended 60 (fun s : String => s) [["a"], ["b"]] _ (List.Perm.refl _)⟩

end Graphiti
